import Mathlib

/-!
Verification of the linear-mcp server (src/index.ts) against its
natural-language specification.

The development shallowly embeds the protocol-handler dispatch layer of
src/index.ts:

* a JSON value model (JS values travelling between the layer and its
  collaborators), together with a model of the JS builtins
  JSON.stringify (with and without an indent argument) and JSON.parse;
* the static resource catalog, resource-template catalog and tool catalog
  (the ListResources / ListResourceTemplates / ListTools handlers);
* the ReadResource handler and the CallTool handler, instrumented with an
  explicit trace of the backend (Linear SDK) calls they perform;
* the backend client, the MCP error type and the error-message extraction
  performed by the catch blocks, modelled as external collaborators.

Machine integers do not occur; JS numbers appearing in the payloads are
modelled as integers (the layer never does arithmetic on them).
-/

namespace LinearMcp

/-! ## JSON value model

JS values exchanged with the backend and serialized by the handlers.
Numbers are modelled as integers; the dispatch layer only moves them
around, never computes with them. -/

inductive Json where
  | null
  | bool (b : Bool)
  | num (n : Int)
  | str (s : String)
  | arr (elems : List Json)
  | obj (fields : List (String × Json))

/-! ## Decimal and hexadecimal digits -/

def isDigitC (c : Char) : Bool := 48 ≤ c.toNat && c.toNat ≤ 57

def digitValC (c : Char) : Nat := c.toNat - 48

def digitChar : Nat → Char
  | 0 => '0' | 1 => '1' | 2 => '2' | 3 => '3' | 4 => '4'
  | 5 => '5' | 6 => '6' | 7 => '7' | 8 => '8' | _ => '9'

def hexChar : Nat → Char
  | 0 => '0' | 1 => '1' | 2 => '2' | 3 => '3' | 4 => '4'
  | 5 => '5' | 6 => '6' | 7 => '7' | 8 => '8' | 9 => '9'
  | 10 => 'a' | 11 => 'b' | 12 => 'c' | 13 => 'd' | 14 => 'e' | _ => 'f'

def hexVal (c : Char) : Option Nat :=
  if isDigitC c then some (c.toNat - 48)
  else if 97 ≤ c.toNat && c.toNat ≤ 102 then some (c.toNat - 87)
  else if 65 ≤ c.toNat && c.toNat ≤ 70 then some (c.toNat - 55)
  else none

/-- Decimal digits of a positive number, most significant first.  The fuel
argument only drives termination; `n` itself is always enough fuel. -/
def natDigitsAux : Nat → Nat → List Char
  | 0, _ => []
  | fuel + 1, n => if n = 0 then [] else natDigitsAux fuel (n / 10) ++ [digitChar (n % 10)]

/-- Decimal rendering of a natural number, as JS renders it. -/
def natToChars (n : Nat) : List Char := if n = 0 then ['0'] else natDigitsAux n n

/-- Rendering of a JS (integral) number, as JSON.stringify renders it. -/
def intToChars (n : Int) : List Char :=
  if n < 0 then '-' :: natToChars n.natAbs else natToChars n.toNat

/-! ## Model of JSON.stringify

The string-escaping rules are those of JSON.stringify: only the quote,
the backslash and control characters below 0x20 are escaped (the five
shorthand escapes where they exist, otherwise a \u00XX escape); no other
character is touched. -/

def escChar (c : Char) : List Char :=
  if c = '"' then ['\\', '"']
  else if c = '\\' then ['\\', '\\']
  else if c = '\x08' then ['\\', 'b']
  else if c = '\x09' then ['\\', 't']
  else if c = '\x0a' then ['\\', 'n']
  else if c = '\x0c' then ['\\', 'f']
  else if c = '\x0d' then ['\\', 'r']
  else if c.toNat < 32 then
    ['\\', 'u', '0', '0', hexChar (c.toNat / 16), hexChar (c.toNat % 16)]
  else [c]

def escChars : List Char → List Char
  | [] => []
  | c :: cs => escChar c ++ escChars cs

/-- A JSON string literal: quote, escaped body, quote. -/
def strLit (s : String) : List Char := '"' :: (escChars s.data ++ ['"'])

/-- Whitespace inserted before an item at nesting level `lvl` when an
indent width is given (JSON.stringify with a numeric space argument);
nothing in compact mode. -/
def pre : Option Nat → Nat → List Char
  | none, _ => []
  | some w, lvl => '\n' :: List.replicate (w * lvl) ' '

/-- Separator between a key and a value: a bare colon in compact mode,
colon-space in indented mode, as JSON.stringify emits. -/
def colonSep : Option Nat → List Char
  | none => [':']
  | some _ => [':', ' ']

mutual

/-- Model of JSON.stringify: serialize a value at nesting level `lvl`,
compact when `ind = none`, indented by `w`-space steps when
`ind = some w`. -/
def serVal (ind : Option Nat) (lvl : Nat) : Json → List Char
  | .null => "null".data
  | .bool true => "true".data
  | .bool false => "false".data
  | .num n => intToChars n
  | .str s => strLit s
  | .arr [] => "[]".data
  | .arr (x :: xs) =>
      '[' :: (pre ind (lvl + 1) ++ serVal ind (lvl + 1) x ++ serArrTail ind (lvl + 1) xs
        ++ pre ind lvl) ++ [']']
  | .obj [] => "{}".data
  | .obj (kv :: kvs) =>
      '{' :: (pre ind (lvl + 1) ++ strLit kv.1 ++ colonSep ind ++ serVal ind (lvl + 1) kv.2
        ++ serObjTail ind (lvl + 1) kvs ++ pre ind lvl) ++ ['}']

/-- Remaining array items, each preceded by a comma (and the newline and
indentation of `pre` in indented mode). -/
def serArrTail (ind : Option Nat) (lvl : Nat) : List Json → List Char
  | [] => []
  | x :: xs => ',' :: (pre ind lvl ++ serVal ind lvl x ++ serArrTail ind lvl xs)

/-- Remaining object members, each preceded by a comma. -/
def serObjTail (ind : Option Nat) (lvl : Nat) : List (String × Json) → List Char
  | [] => []
  | kv :: kvs => ',' :: (pre ind lvl ++ strLit kv.1 ++ colonSep ind ++ serVal ind lvl kv.2
      ++ serObjTail ind lvl kvs)

end

/-- JSON.stringify as used by the handlers: `jsonStringify (some 2) v`
models JSON.stringify(v, null, 2) and `jsonStringify none v` models
JSON.stringify(v). -/
def jsonStringify (ind : Option Nat) (j : Json) : String := String.mk (serVal ind 0 j)

/-! ## Model of JSON.parse

A recursive-descent parser over the character list, with a fuel argument
driving termination of the value/elements/members recursion.  It covers
the whole grammar JSON.stringify emits for the value model above
(integral numbers; fractions and exponents do not occur). -/

def isWs (c : Char) : Bool := c == ' ' || c == '\t' || c == '\n' || c == '\r'

def skipWs : List Char → List Char
  | [] => []
  | c :: cs => if isWs c then skipWs cs else c :: cs

/-- Meaning of a single-character escape after a backslash. -/
def escUnmap (c : Char) : Option Char :=
  if c = '"' then some '"'
  else if c = '\\' then some '\\'
  else if c = '/' then some '/'
  else if c = 'b' then some '\x08'
  else if c = 'f' then some '\x0c'
  else if c = 'n' then some '\x0a'
  else if c = 'r' then some '\x0d'
  else if c = 't' then some '\x09'
  else none

/-- Parse the body of a string literal after the opening quote, up to and
including the closing quote; raw control characters are rejected, as
JSON.parse rejects them. -/
def parseStrBody : List Char → Option (List Char × List Char)
  | [] => none
  | c :: cs =>
    if c = '"' then some ([], cs)
    else if c = '\\' then
      match cs with
      | [] => none
      | e :: es =>
        if e = 'u' then
          match es with
          | h1 :: h2 :: h3 :: h4 :: rest =>
            match hexVal h1, hexVal h2, hexVal h3, hexVal h4 with
            | some a, some b, some g, some d =>
              match parseStrBody rest with
              | some (sl, r) => some (Char.ofNat (((a * 16 + b) * 16 + g) * 16 + d) :: sl, r)
              | none => none
            | _, _, _, _ => none
          | _ => none
        else
          match escUnmap e with
          | some ec =>
            match parseStrBody es with
            | some (sl, r) => some (ec :: sl, r)
            | none => none
          | none => none
    else if c.toNat < 32 then none
    else
      match parseStrBody cs with
      | some (sl, r) => some (c :: sl, r)
      | none => none

/-- Accumulate decimal digits. -/
def parseNatAcc (acc : Nat) : List Char → Nat × List Char
  | [] => (acc, [])
  | c :: cs => if isDigitC c then parseNatAcc (10 * acc + digitValC c) cs else (acc, c :: cs)

/-- Parse a nonempty run of decimal digits. -/
def parseNatNum : List Char → Option (Nat × List Char)
  | [] => none
  | c :: cs => if isDigitC c then some (parseNatAcc (digitValC c) cs) else none

mutual

/-- Parse one JSON value (leading whitespace allowed). -/
def parseVal : Nat → List Char → Option (Json × List Char)
  | 0, _ => none
  | fuel + 1, input =>
    match skipWs input with
    | [] => none
    | c :: cs =>
      if c = '{' then
        let s2 := skipWs cs
        if s2.head? = some '}' then some (.obj [], s2.tail)
        else
          match parseMembers fuel s2 with
          | some (kvs, r) => some (.obj kvs, r)
          | none => none
      else if c = '[' then
        let s2 := skipWs cs
        if s2.head? = some ']' then some (.arr [], s2.tail)
        else
          match parseElems fuel s2 with
          | some (xs, r) => some (.arr xs, r)
          | none => none
      else if c = '"' then
        match parseStrBody cs with
        | some (sl, r) => some (.str (String.mk sl), r)
        | none => none
      else if c = 't' then
        match cs with
        | 'r' :: 'u' :: 'e' :: r => some (.bool true, r)
        | _ => none
      else if c = 'f' then
        match cs with
        | 'a' :: 'l' :: 's' :: 'e' :: r => some (.bool false, r)
        | _ => none
      else if c = 'n' then
        match cs with
        | 'u' :: 'l' :: 'l' :: r => some (.null, r)
        | _ => none
      else if c = '-' then
        match parseNatNum cs with
        | some (m, r) => some (.num (-(m : Int)), r)
        | none => none
      else if isDigitC c then
        match parseNatNum (c :: cs) with
        | some (m, r) => some (.num (m : Int), r)
        | none => none
      else none

/-- Parse the elements of a nonempty array, consuming the closing
bracket. -/
def parseElems : Nat → List Char → Option (List Json × List Char)
  | 0, _ => none
  | fuel + 1, s =>
    match parseVal fuel s with
    | none => none
    | some (x, r) =>
      match skipWs r with
      | ',' :: r2 =>
        match parseElems fuel r2 with
        | some (xs, r3) => some (x :: xs, r3)
        | none => none
      | ']' :: r2 => some ([x], r2)
      | _ => none

/-- Parse the members of a nonempty object (leading whitespace already
consumed), consuming the closing brace. -/
def parseMembers : Nat → List Char → Option (List (String × Json) × List Char)
  | 0, _ => none
  | fuel + 1, s =>
    match s with
    | '"' :: cs =>
      match parseStrBody cs with
      | some (kl, r) =>
        match skipWs r with
        | ':' :: r2 =>
          match parseVal fuel r2 with
          | some (v, r3) =>
            match skipWs r3 with
            | ',' :: r4 =>
              match parseMembers fuel (skipWs r4) with
              | some (kvs, r5) => some ((String.mk kl, v) :: kvs, r5)
              | none => none
            | '}' :: r4 => some ([(String.mk kl, v)], r4)
            | _ => none
          | none => none
        | _ => none
      | none => none
    | _ => none

end

/-- Property of an input that cannot extend a just-parsed number: it is
empty or starts with a non-digit. -/
def DigitSafe (s : List Char) : Prop := ∀ c, s.head? = some c → isDigitC c = false

/-- Model of JSON.parse: parse a complete value; trailing whitespace only. -/
def jsonParse (s : String) : Option Json :=
  match parseVal (s.data.length + 1) s.data with
  | some (j, rest) => if skipWs rest = [] then some j else none
  | none => none

mutual

/-- Fuel sufficient for `parseVal` to parse a serialization of `j`. -/
def fuelB : Json → Nat
  | .null => 1
  | .bool _ => 1
  | .num _ => 1
  | .str _ => 1
  | .arr [] => 1
  | .arr (x :: xs) => 1 + fuelBL (x :: xs)
  | .obj [] => 1
  | .obj (kv :: kvs) => 1 + fuelBM (kv :: kvs)

/-- Fuel sufficient for `parseElems` on serialized elements. -/
def fuelBL : List Json → Nat
  | [] => 0
  | x :: xs => 1 + max (fuelB x) (fuelBL xs)

/-- Fuel sufficient for `parseMembers` on serialized members. -/
def fuelBM : List (String × Json) → Nat
  | [] => 0
  | kv :: kvs => 1 + max (fuelB kv.2) (fuelBM kvs)

end

/-! ## MCP protocol model

Error codes and the McpError class are part of the MCP SDK (an external
collaborator of the layer under verification). -/

/-- JSON-RPC error codes used by src/index.ts (values from the MCP SDK). -/
inductive ErrorCode where
  | invalidRequest
  | methodNotFound
  | internalError
deriving DecidableEq

def ErrorCode.toInt : ErrorCode → Int
  | .invalidRequest => -32600
  | .methodNotFound => -32601
  | .internalError => -32603

/-- A protocol-level fault (the McpError class of the MCP SDK): an error
code together with the message passed to the constructor. -/
structure McpError where
  code : ErrorCode
  msg : String
deriving DecidableEq

/-- Message of an McpError as an Error instance: the MCP SDK constructor
sets the message to "MCP error CODE: MSG". -/
def McpError.errMessage (e : McpError) : String :=
  "MCP error " ++ toString e.code.toInt ++ ": " ++ e.msg

/-- An error thrown inside a handler's try block: either an McpError
thrown by the handler itself, or a failure of a backend (Linear SDK)
call, identified by its message. -/
inductive Thrown where
  | mcp (e : McpError)
  | backendErr (msg : String)
deriving DecidableEq

/-- The message extraction performed by the catch blocks of
src/index.ts: error instanceof Error ? error.message : String(error).
Both McpError and SDK failures are Error instances carrying a message. -/
def Thrown.message : Thrown → String
  | .mcp e => e.errMessage
  | .backendErr m => m

/-- One contents entry of a read-resource result (src/index.ts lines
115-123).  The text field is optional because JSON.stringify applied to
an undefined content yields undefined, not a string. -/
structure ReadContents where
  uri : String
  mimeType : String
  text : Option String
deriving DecidableEq

/-- One content item of a tool result: { type: "text", text: ... }. -/
structure ContentItem where
  type : String
  text : String
deriving DecidableEq

/-- A tool call result.  isError is optional: the success paths of
src/index.ts omit the key entirely, the catch path sets it to true. -/
structure ToolCallResult where
  content : List ContentItem
  isError : Option Bool
deriving DecidableEq

/-! ## Catalogs (ListResources, ListResourceTemplates, ListTools) -/

/-- A static resource descriptor (src/index.ts lines 50-65). -/
structure ResourceDescriptor where
  uri : String
  name : String
  mimeType : String
  description : String
deriving DecidableEq

/-- The static resource catalog (src/index.ts lines 50-65). -/
def listResources : List ResourceDescriptor :=
  [{ uri := "linear://issues/active", name := "Active Issues",
     mimeType := "application/json",
     description := "Currently active issues in Linear" },
   { uri := "linear://teams", name := "Teams",
     mimeType := "application/json",
     description := "List of teams in the workspace" }]

/-- A resource template descriptor (src/index.ts lines 68-80). -/
structure ResourceTemplateDescriptor where
  uriTemplate : String
  name : String
  mimeType : String
  description : String
deriving DecidableEq

/-- The resource template catalog (src/index.ts lines 68-80). -/
def listResourceTemplates : List ResourceTemplateDescriptor :=
  [{ uriTemplate := "linear://issues/{issueId}", name := "Single Issue",
     mimeType := "application/json",
     description := "Get a specific issue by ID" }]

/-- Declared shape of one tool parameter. -/
structure PropSchema where
  type : String
  description : String
  minimum : Option Int := none
  maximum : Option Int := none
deriving DecidableEq

/-- Declared input shape of a tool. -/
structure InputSchema where
  type : String
  properties : List (String × PropSchema)
  required : List String
deriving DecidableEq

/-- A tool descriptor. -/
structure ToolDescriptor where
  name : String
  description : String
  inputSchema : InputSchema
deriving DecidableEq

/-- The static tool catalog (src/index.ts lines 136-202), in declaration
order. -/
def listTools : List ToolDescriptor :=
  [{ name := "create_issue",
     description := "Create a new issue in Linear",
     inputSchema :=
       { type := "object",
         properties :=
           [("title", { type := "string", description := "Title of the issue" }),
            ("description", { type := "string", description := "Description of the issue" }),
            ("teamId", { type := "string",
                         description := "ID of the team to assign the issue to" }),
            ("priority", { type := "number",
                           description := "Priority of the issue (0-4)",
                           minimum := some 0, maximum := some 4 })],
         required := ["title", "teamId"] } },
   { name := "read_team_ids",
     description := "Read team ids",
     inputSchema := { type := "object", properties := [], required := [] } },
   { name := "update_issue",
     description := "Update an existing issue in Linear",
     inputSchema :=
       { type := "object",
         properties :=
           [("issueId", { type := "string", description := "ID of the issue to update" }),
            ("title", { type := "string", description := "New title for the issue" }),
            ("description", { type := "string",
                              description := "New description for the issue" }),
            ("status", { type := "string", description := "New status for the issue" })],
         required := ["issueId"] } }]

/-- The declared parameters of a tool that are not required, in
declaration order. -/
def optionalFields (t : ToolDescriptor) : List String :=
  (t.inputSchema.properties.map Prod.fst).filter
    (fun k => !(t.inputSchema.required.contains k))

/-! ## Backend client model

The Linear SDK client is an external collaborator; each operation either
returns a payload or fails with an error message. -/

/-- An issue object as far as this layer looks at it (only its url is
read, and the Linear SDK declares url as a string). -/
structure Issue where
  url : String
deriving DecidableEq

/-- The fields object passed to createIssue (src/index.ts lines 215-220);
each field holds the untyped argument value or is undefined. -/
structure CreateIssueFields where
  title : Option Json
  description : Option Json
  teamId : Option Json
  priority : Option Json

/-- The fields object passed to updateIssue (src/index.ts lines 239-242):
exactly a title and a description, nothing else. -/
structure UpdateIssueFields where
  title : Option Json
  description : Option Json

/-- The payload of createIssue/updateIssue: its issue field may resolve
to undefined (the handler reads (await issue.issue)?.url). -/
structure IssuePayload where
  issue : Option Issue

/-- The backend client operations used by the handlers.  Payload-bearing
reads return the JS value that the handler serializes. -/
structure LinearBackend where
  listActiveIssues : Except String Json
  listTeams : Except String Json
  getIssue : String → Except String Json
  createIssue : CreateIssueFields → Except String IssuePayload
  updateIssue : Option Json → UpdateIssueFields → Except String IssuePayload

/-- One observed outbound backend call. -/
inductive BackendCall where
  | listActiveIssues
  | listTeams
  | getIssue (issueId : String)
  | createIssue (fields : CreateIssueFields)
  | updateIssue (issueId : Option Json) (fields : UpdateIssueFields)

/-! ## String helpers used by the ReadResource handler -/

/-- JS String.prototype.startsWith. -/
def strStartsWith (s p : String) : Bool := p.data.isPrefixOf s.data

def replaceFirstAux (pat repl : List Char) : List Char → List Char
  | [] => if pat.isPrefixOf ([] : List Char) then repl else []
  | c :: cs =>
    if pat.isPrefixOf (c :: cs) then repl ++ (c :: cs).drop pat.length
    else c :: replaceFirstAux pat repl cs

/-- JS String.prototype.replace with a string pattern: replace the first
occurrence of `pat` by `repl`. -/
def replaceFirst (s pat repl : String) : String :=
  String.mk (replaceFirstAux pat.data repl.data s.data)

/-! ## ReadResource handler (src/index.ts lines 82-133) -/

/-- Body of the try block of the ReadResource handler: route the uri,
perform at most one backend call, and produce the content value (which
stays undefined on the dead issueId = "active" sub-branch), or throw.
The returned list records the backend calls performed. -/
def readResourceInner (b : LinearBackend) (uri : String) :
    Except Thrown (Option Json) × List BackendCall :=
  if uri = "linear://issues/active" then
    match b.listActiveIssues with
    | .ok j => (.ok (some j), [.listActiveIssues])
    | .error m => (.error (.backendErr m), [.listActiveIssues])
  else if uri = "linear://teams" then
    match b.listTeams with
    | .ok j => (.ok (some j), [.listTeams])
    | .error m => (.error (.backendErr m), [.listTeams])
  else if strStartsWith uri "linear://issues/" then
    let issueId := replaceFirst uri "linear://issues/" ""
    if issueId ≠ "active" then
      match b.getIssue issueId with
      | .ok j => (.ok (some j), [.getIssue issueId])
      | .error m => (.error (.backendErr m), [.getIssue issueId])
    else (.ok none, [])
  else (.error (.mcp ⟨.invalidRequest, "Unknown resource: " ++ uri⟩), [])

/-- The ReadResource handler: the try block builds the contents entry
(echoing the request uri and serializing the content with
JSON.stringify(content, null, 2)); the catch block rethrows any error as
an internal-error McpError prefixed with "Linear API error: ". -/
def readResource (b : LinearBackend) (uri : String) :
    Except McpError ReadContents × List BackendCall :=
  match readResourceInner b uri with
  | (.ok content, calls) =>
      (.ok { uri := uri, mimeType := "application/json",
             text := content.map (jsonStringify (some 2)) }, calls)
  | (.error e, calls) =>
      (.error ⟨.internalError, "Linear API error: " ++ e.message⟩, calls)

/-! ## CallTool handler (src/index.ts lines 204-278) -/

/-- The untyped arguments object of a call-tool request. -/
def ToolArgs := List (String × Json)

/-- JS property access on the arguments object. -/
def argLookup (args : ToolArgs) (k : String) : Option Json :=
  match args.find? (fun p => p.1 == k) with
  | some p => some p.2
  | none => none

/-- The object literal passed to createIssue after destructuring the
arguments (src/index.ts lines 207-220). -/
def mkCreateFields (args : ToolArgs) : CreateIssueFields :=
  { title := argLookup args "title",
    description := argLookup args "description",
    teamId := argLookup args "teamId",
    priority := argLookup args "priority" }

/-- The fields object passed to updateIssue (src/index.ts lines 233-242). -/
def mkUpdateFields (args : ToolArgs) : UpdateIssueFields :=
  { title := argLookup args "title",
    description := argLookup args "description" }

/-- Rendering of (payload.issue)?.url inside a template literal: the url
when the issue is present, the string "undefined" otherwise. -/
def urlText : Option Issue → String
  | some i => i.url
  | none => "undefined"

/-- Body of the try block of the CallTool handler: dispatch on the tool
name (create_issue, update_issue, read_team_ids, in source order), throw
a method-not-found McpError for any other name. -/
def callToolInner (b : LinearBackend) (name : String) (args : ToolArgs) :
    Except Thrown ToolCallResult × List BackendCall :=
  if name = "create_issue" then
    let fields := mkCreateFields args
    match b.createIssue fields with
    | .ok payload =>
        (.ok { content := [{ type := "text",
                             text := "Created issue: " ++ urlText payload.issue }],
               isError := none }, [.createIssue fields])
    | .error m => (.error (.backendErr m), [.createIssue fields])
  else if name = "update_issue" then
    let issueId := argLookup args "issueId"
    let fields := mkUpdateFields args
    match b.updateIssue issueId fields with
    | .ok payload =>
        (.ok { content := [{ type := "text",
                             text := "Updated issue: " ++ urlText payload.issue }],
               isError := none }, [.updateIssue issueId fields])
    | .error m => (.error (.backendErr m), [.updateIssue issueId fields])
  else if name = "read_team_ids" then
    match b.listTeams with
    | .ok teams =>
        (.ok { content := [{ type := "text", text := jsonStringify none teams }],
               isError := none }, [.listTeams])
    | .error m => (.error (.backendErr m), [.listTeams])
  else (.error (.mcp ⟨.methodNotFound, "Unknown tool: " ++ name⟩), [])

/-- The soft error result produced by the catch block of the CallTool
handler (src/index.ts lines 265-277). -/
def apiErrorResult (msg : String) : ToolCallResult :=
  { content := [{ type := "text", text := "Linear API error: " ++ msg }],
    isError := some true }

/-- The CallTool handler: the catch block wraps the whole dispatch, so
every Thrown error, including the handler's own method-not-found
McpError, is converted into a soft isError result; the handler itself
never rejects. -/
def callTool (b : LinearBackend) (name : String) (args : ToolArgs) :
    Except McpError ToolCallResult × List BackendCall :=
  match callToolInner b name args with
  | (.ok r, calls) => (.ok r, calls)
  | (.error e, calls) => (.ok (apiErrorResult e.message), calls)

/-! ## Sample data for concrete evaluations -/

/-- A sample backend with successful operations. -/
def sampleBackend : LinearBackend :=
  { listActiveIssues := .ok (.arr [.obj [("id", .str "ISS-1")]]),
    listTeams := .ok (.arr [.obj [("id", .str "team1"), ("name", .str "Core")]]),
    getIssue := fun issueId => .ok (.obj [("id", .str issueId)]),
    createIssue := fun _ => .ok { issue := some { url := "https://linear.app/i/1" } },
    updateIssue := fun _ _ => .ok { issue := some { url := "https://linear.app/i/2" } } }

/-- A sample backend whose every operation fails with message "boom". -/
def failingBackend : LinearBackend :=
  { listActiveIssues := .error "boom",
    listTeams := .error "boom",
    getIssue := fun _ => .error "boom",
    createIssue := fun _ => .error "boom",
    updateIssue := fun _ _ => .error "boom" }

/-- A sample backend whose createIssue/updateIssue payloads resolve their
issue field to undefined. -/
def payloadlessBackend : LinearBackend :=
  { listActiveIssues := .ok (.arr []),
    listTeams := .ok (.arr []),
    getIssue := fun _ => .ok .null,
    createIssue := fun _ => .ok { issue := none },
    updateIssue := fun _ _ => .ok { issue := none } }

/-- A sample JSON value exercising every constructor and the string
escapes. -/
def sampleJson : Json :=
  .obj [("a", .arr [.num 1, .num (-2), .null]),
        ("b", .str "x\"y\\z\x01 ok"),
        ("c", .bool true),
        ("d", .obj [])]

/-- Summary view of a tool descriptor: name, required parameters, and
optional (declared but not required) parameters, in declaration order. -/
def descSummary (t : ToolDescriptor) : String × List String × List String :=
  (t.name, t.inputSchema.required, optionalFields t)

end LinearMcp

namespace LinearMcp

/-! ## Digit lemmas -/

theorem digitChar_spec : ∀ d, d < 10 → isDigitC (digitChar d) = true ∧ digitValC (digitChar d) = d := by
  decide

theorem hexVal_hexChar : ∀ d, d < 16 → hexVal (hexChar d) = some d := by
  decide

theorem natDigitsAux_all_digits :
    ∀ fuel n c, c ∈ natDigitsAux fuel n → isDigitC c = true := by
  intro fuel
  induction fuel with
  | zero => intro n c hc; simp [natDigitsAux] at hc
  | succ f ih =>
    intro n c hc
    by_cases hn : n = 0
    · simp [natDigitsAux, hn] at hc
    · simp only [natDigitsAux, if_neg hn, List.mem_append, List.mem_singleton] at hc
      rcases hc with h | h
      · exact ih _ _ h
      · subst h; exact (digitChar_spec _ (Nat.mod_lt _ (by omega))).1

theorem natToChars_all_digits : ∀ n c, c ∈ natToChars n → isDigitC c = true := by
  intro n c hc
  by_cases hn : n = 0
  · simp [natToChars, hn] at hc; subst hc; decide
  · simp only [natToChars, if_neg hn] at hc
    exact natDigitsAux_all_digits n n c hc

theorem natDigitsAux_ne_nil :
    ∀ fuel n, n ≠ 0 → n ≤ fuel → natDigitsAux fuel n ≠ [] := by
  intro fuel n hn hle
  cases fuel with
  | zero => omega
  | succ f => simp [natDigitsAux, if_neg hn]

theorem natToChars_head :
    ∀ n, ∃ c cs, natToChars n = c :: cs ∧ isDigitC c = true := by
  intro n
  rcases h : natToChars n with _ | ⟨c, cs⟩
  · exfalso
    by_cases hn : n = 0
    · simp [natToChars, hn] at h
    · exact natDigitsAux_ne_nil n n hn le_rfl (by simpa [natToChars, if_neg hn] using h)
  · exact ⟨c, cs, rfl, natToChars_all_digits n c (h ▸ List.mem_cons_self c cs)⟩

theorem natDigitsAux_foldl :
    ∀ fuel n acc, n ≤ fuel →
      (natDigitsAux fuel n).foldl (fun a c => 10 * a + digitValC c) acc =
        acc * 10 ^ (natDigitsAux fuel n).length + n := by
  intro fuel
  induction fuel with
  | zero =>
    intro n acc h
    have : n = 0 := by omega
    subst this
    simp [natDigitsAux]
  | succ f ih =>
    intro n acc h
    by_cases hn : n = 0
    · subst hn; simp [natDigitsAux]
    · have hdiv : n / 10 < n := Nat.div_lt_self (Nat.pos_of_ne_zero hn) (by norm_num)
      rw [natDigitsAux, if_neg hn, List.foldl_append]
      simp only [List.foldl_cons, List.foldl_nil]
      rw [ih (n / 10) acc (by omega)]
      rw [(digitChar_spec (n % 10) (Nat.mod_lt _ (by omega))).2]
      rw [List.length_append, List.length_singleton, pow_succ]
      have hm := Nat.div_add_mod n 10
      calc 10 * (acc * 10 ^ (natDigitsAux f (n / 10)).length + n / 10) + n % 10
          = acc * (10 ^ (natDigitsAux f (n / 10)).length * 10)
              + (10 * (n / 10) + n % 10) := by ring
        _ = acc * (10 ^ (natDigitsAux f (n / 10)).length * 10) + n := by rw [hm]

theorem natToChars_foldl :
    ∀ n, (natToChars n).foldl (fun a c => 10 * a + digitValC c) 0 = n := by
  intro n
  by_cases hn : n = 0
  · subst hn; decide
  · simp only [natToChars, if_neg hn]
    rw [natDigitsAux_foldl n n 0 le_rfl]
    simp

/-! ## DigitSafe: inputs whose first character cannot extend a number -/

theorem digitSafe_nil : DigitSafe [] := by
  intro c h; simp at h

theorem digitSafe_cons {c : Char} (h : isDigitC c = false) (s : List Char) :
    DigitSafe (c :: s) := by
  intro d hd
  simp only [List.head?_cons, Option.some_inj] at hd
  subst hd; exact h

theorem parseNatAcc_spec :
    ∀ ds rest acc, (∀ c ∈ ds, isDigitC c = true) → DigitSafe rest →
      parseNatAcc acc (ds ++ rest) =
        (ds.foldl (fun a c => 10 * a + digitValC c) acc, rest) := by
  intro ds
  induction ds with
  | nil =>
    intro rest acc _ hrest
    simp only [List.nil_append, List.foldl_nil]
    cases rest with
    | nil => rfl
    | cons c cs =>
      have hc := hrest c (by simp)
      simp [parseNatAcc, hc]
  | cons d ds ih =>
    intro rest acc hds hrest
    have hd : isDigitC d = true := hds d (by simp)
    simp only [List.cons_append, parseNatAcc, hd, if_pos, List.foldl_cons]
    exact ih rest _ (fun c hc => hds c (by simp [hc])) hrest

theorem parseNatNum_natToChars :
    ∀ n rest, DigitSafe rest → parseNatNum (natToChars n ++ rest) = some (n, rest) := by
  intro n rest hrest
  obtain ⟨c, cs, hEq, hc⟩ := natToChars_head n
  have hall := natToChars_all_digits n
  have hfold := natToChars_foldl n
  rw [hEq] at hall hfold ⊢
  simp only [List.cons_append, parseNatNum, hc, if_pos]
  rw [parseNatAcc_spec cs rest (digitValC c)
        (fun x hx => hall x (List.mem_cons_of_mem c hx)) hrest]
  simp only [List.foldl_cons] at hfold
  have : 10 * 0 + digitValC c = digitValC c := by omega
  rw [this] at hfold
  rw [hfold]

end LinearMcp

namespace LinearMcp

/-! ## String-literal round trip -/

theorem parseStrBody_escChars :
    ∀ cl rest, parseStrBody (escChars cl ++ '"' :: rest) = some (cl, rest) := by
  intro cl
  induction cl with
  | nil =>
    intro rest
    rw [escChars, List.nil_append, parseStrBody.eq_def]
    simp +decide
  | cons c cl ih =>
    intro rest
    simp only [escChars, List.append_assoc]
    by_cases h1 : c = '"'
    · subst h1
      rw [show escChar '"' = ['\\', '"'] from rfl, List.cons_append, List.cons_append,
        List.nil_append, parseStrBody.eq_def]
      simp +decide [escUnmap, ih]
    · by_cases h2 : c = '\\'
      · subst h2
        rw [show escChar '\\' = ['\\', '\\'] from rfl, List.cons_append, List.cons_append,
          List.nil_append, parseStrBody.eq_def]
        simp +decide [escUnmap, ih]
      · by_cases h3 : c = '\x08'
        · subst h3
          rw [show escChar '\x08' = ['\\', 'b'] from rfl, List.cons_append, List.cons_append,
            List.nil_append, parseStrBody.eq_def]
          simp +decide [escUnmap, ih]
        · by_cases h4 : c = '\x09'
          · subst h4
            rw [show escChar '\x09' = ['\\', 't'] from rfl, List.cons_append, List.cons_append,
              List.nil_append, parseStrBody.eq_def]
            simp +decide [escUnmap, ih]
          · by_cases h5 : c = '\x0a'
            · subst h5
              rw [show escChar '\x0a' = ['\\', 'n'] from rfl, List.cons_append,
                List.cons_append, List.nil_append, parseStrBody.eq_def]
              simp +decide [escUnmap, ih]
            · by_cases h6 : c = '\x0c'
              · subst h6
                rw [show escChar '\x0c' = ['\\', 'f'] from rfl, List.cons_append,
                  List.cons_append, List.nil_append, parseStrBody.eq_def]
                simp +decide [escUnmap, ih]
              · by_cases h7 : c = '\x0d'
                · subst h7
                  rw [show escChar '\x0d' = ['\\', 'r'] from rfl, List.cons_append,
                    List.cons_append, List.nil_append, parseStrBody.eq_def]
                  simp +decide [escUnmap, ih]
                · by_cases h8 : c.toNat < 32
                  · have hhi : c.toNat / 16 < 16 := by omega
                    have hlo : c.toNat % 16 < 16 := Nat.mod_lt _ (by norm_num)
                    simp only [escChar, if_neg h1, if_neg h2, if_neg h3, if_neg h4,
                      if_neg h5, if_neg h6, if_neg h7, if_pos h8, List.cons_append,
                      List.nil_append]
                    rw [parseStrBody.eq_def]
                    simp +decide [escUnmap, hexVal_hexChar _ hhi, hexVal_hexChar _ hlo,
                      (by decide : hexVal '0' = some 0), ih]
                    rw [show c.toNat / 16 * 16 + c.toNat % 16 = c.toNat from by omega,
                      Char.ofNat_toNat]
                  · have h8f : ¬ c.toNat < 32 := h8
                    simp only [escChar, if_neg h1, if_neg h2, if_neg h3, if_neg h4,
                      if_neg h5, if_neg h6, if_neg h7, if_neg h8f, List.cons_append,
                      List.nil_append]
                    rw [parseStrBody.eq_def]
                    simp +decide [h1, h2, h8f, ih]

/-! ## Whitespace lemmas -/

theorem skipWs_cons_of_not_ws {c : Char} (h : isWs c = false) (s : List Char) :
    skipWs (c :: s) = c :: s := by
  simp [skipWs, h]

theorem skipWs_append_of_ws :
    ∀ w s, (∀ c ∈ w, isWs c = true) → skipWs (w ++ s) = skipWs s := by
  intro w
  induction w with
  | nil => intro s _; rfl
  | cons c cs ih =>
    intro s hw
    have hc : isWs c = true := hw c (by simp)
    simp only [List.cons_append, skipWs, hc, if_pos]
    exact ih s (fun d hd => hw d (by simp [hd]))

theorem pre_all_ws : ∀ ind lvl c, c ∈ pre ind lvl → isWs c = true := by
  intro ind lvl c hc
  cases ind with
  | none => simp [pre] at hc
  | some w =>
    simp only [pre, List.mem_cons] at hc
    rcases hc with h | h
    · subst h; decide
    · have := List.eq_of_mem_replicate h
      subst this; decide

theorem skipWs_pre_append (ind : Option Nat) (lvl : Nat) (s : List Char) :
    skipWs (pre ind lvl ++ s) = skipWs s :=
  skipWs_append_of_ws (pre ind lvl) s (pre_all_ws ind lvl)

end LinearMcp

namespace LinearMcp

/-! ## Character classification helpers -/

theorem isDigitC_ne {c d : Char} (h : isDigitC c = true) (hd : isDigitC d = false) :
    c ≠ d := by
  intro e; subst e; rw [h] at hd; simp at hd

theorem isDigitC_not_ws {c : Char} (h : isDigitC c = true) : isWs c = false := by
  cases hws : isWs c with
  | false => rfl
  | true =>
    exfalso
    simp only [isWs, Bool.or_eq_true, beq_iff_eq] at hws
    rcases hws with ((e | e) | e) | e <;> subst e <;> exact absurd h (by decide)

/-! ## Head shape of a serialized value -/

theorem headFacts_cons {c : Char} (s : List Char)
    (h : isWs c = false ∧ c ≠ ']' ∧ c ≠ '}') :
    ∃ d t, c :: s = d :: t ∧ isWs d = false ∧ d ≠ ']' ∧ d ≠ '}' :=
  ⟨c, s, rfl, h.1, h.2.1, h.2.2⟩

theorem serVal_head :
    ∀ ind lvl j, ∃ c s, serVal ind lvl j = c :: s ∧ isWs c = false ∧ c ≠ ']' ∧ c ≠ '}' := by
  intro ind lvl j
  cases j with
  | num n =>
    by_cases hn : n < 0
    · rw [show serVal ind lvl (.num n) = intToChars n from rfl, intToChars, if_pos hn]
      exact headFacts_cons _ (by decide)
    · obtain ⟨c, cs, hEq, hc⟩ := natToChars_head n.toNat
      rw [show serVal ind lvl (.num n) = intToChars n from rfl, intToChars, if_neg hn, hEq]
      exact headFacts_cons _
        ⟨isDigitC_not_ws hc, isDigitC_ne hc (by decide), isDigitC_ne hc (by decide)⟩
  | null => exact headFacts_cons _ (by decide)
  | str s => exact headFacts_cons _ (by decide)
  | bool b => cases b with
    | true => exact headFacts_cons _ (by decide)
    | false => exact headFacts_cons _ (by decide)
  | arr xs => cases xs with
    | nil => exact headFacts_cons _ (by decide)
    | cons x xs => exact headFacts_cons _ (by decide)
  | obj kvs => cases kvs with
    | nil => exact headFacts_cons _ (by decide)
    | cons kv kvs => exact headFacts_cons _ (by decide)

theorem skipWs_serVal_append (ind : Option Nat) (lvl : Nat) (j : Json) (s : List Char) :
    skipWs (serVal ind lvl j ++ s) = serVal ind lvl j ++ s := by
  obtain ⟨c, t, hEq, hws, _, _⟩ := serVal_head ind lvl j
  rw [hEq, List.cons_append, skipWs_cons_of_not_ws hws]

theorem serVal_append_head_ne_brackets (ind : Option Nat) (lvl : Nat) (j : Json)
    (s : List Char) :
    (serVal ind lvl j ++ s).head? ≠ some ']' ∧ (serVal ind lvl j ++ s).head? ≠ some '}' := by
  obtain ⟨c, t, hEq, _, hne1, hne2⟩ := serVal_head ind lvl j
  rw [hEq]
  constructor
  · intro h; simp only [List.cons_append, List.head?_cons, Option.some_inj] at h
    exact hne1 h
  · intro h; simp only [List.cons_append, List.head?_cons, Option.some_inj] at h
    exact hne2 h

/-! ## Leading whitespace is transparent to the parser -/

theorem parseVal_ws :
    ∀ fuel w s, (∀ c ∈ w, isWs c = true) → parseVal fuel (w ++ s) = parseVal fuel s := by
  intro fuel w s hw
  cases fuel with
  | zero => rfl
  | succ f =>
    simp only [parseVal]
    rw [skipWs_append_of_ws w s hw]

theorem parseElems_ws :
    ∀ fuel w s, (∀ c ∈ w, isWs c = true) → parseElems fuel (w ++ s) = parseElems fuel s := by
  intro fuel w s hw
  cases fuel with
  | zero => rfl
  | succ f =>
    simp only [parseElems]
    rw [parseVal_ws f w s hw]

/-! ## Fuel bounds -/

theorem fuelB_pos : ∀ j, 1 ≤ fuelB j := by
  intro j
  cases j with
  | null => simp [fuelB]
  | bool b => simp [fuelB]
  | num n => simp [fuelB]
  | str s => simp [fuelB]
  | arr xs => cases xs <;> simp [fuelB]
  | obj kvs => cases kvs <;> simp [fuelB]

mutual

theorem fuelB_le_len : ∀ (ind : Option Nat) (lvl : Nat) (j : Json),
    fuelB j ≤ (serVal ind lvl j).length := fun ind lvl j =>
  match j with
  | .null => by simp [fuelB, serVal]
  | .bool true => by simp [fuelB, serVal]
  | .bool false => by simp [fuelB, serVal]
  | .num n => by
    simp only [fuelB, serVal]
    by_cases hn : n < 0
    · rw [intToChars, if_pos hn]; simp
    · rw [intToChars, if_neg hn]
      obtain ⟨c, cs, hEq, _⟩ := natToChars_head n.toNat
      rw [hEq]; simp
  | .str s => by simp [fuelB, serVal, strLit]
  | .arr [] => by simp [fuelB, serVal]
  | .arr (x :: xs) => by
    have h1 := fuelB_le_len ind (lvl + 1) x
    have h2 := fuelBL_le_len ind (lvl + 1) xs
    simp only [fuelB, fuelBL, serVal, List.length_append, List.length_cons]
    omega
  | .obj [] => by simp [fuelB, serVal]
  | .obj (kv :: kvs) => by
    have h1 := fuelB_le_len ind (lvl + 1) kv.2
    have h2 := fuelBM_le_len ind (lvl + 1) kvs
    simp only [fuelB, fuelBM, serVal, List.length_append, List.length_cons]
    omega

theorem fuelBL_le_len : ∀ (ind : Option Nat) (lvl : Nat) (xs : List Json),
    fuelBL xs ≤ (serArrTail ind lvl xs).length := fun ind lvl xs =>
  match xs with
  | [] => by simp [fuelBL, serArrTail]
  | x :: xs => by
    have h1 := fuelB_le_len ind lvl x
    have h2 := fuelBL_le_len ind lvl xs
    simp only [fuelBL, serArrTail, List.length_append, List.length_cons]
    omega

theorem fuelBM_le_len : ∀ (ind : Option Nat) (lvl : Nat) (kvs : List (String × Json)),
    fuelBM kvs ≤ (serObjTail ind lvl kvs).length := fun ind lvl kvs =>
  match kvs with
  | [] => by simp [fuelBM, serObjTail]
  | kv :: kvs => by
    have h1 := fuelB_le_len ind lvl kv.2
    have h2 := fuelBM_le_len ind lvl kvs
    simp only [fuelBM, serObjTail, List.length_append, List.length_cons]
    omega

end

end LinearMcp

namespace LinearMcp

theorem digitSafe_cons_of_pre (ind : Option Nat) (lvc : Nat) {c : Char}
    (hc : isDigitC c = false) (r : List Char) :
    DigitSafe (pre ind lvc ++ c :: r) := by
  cases ind with
  | none => simpa only [pre, List.nil_append] using digitSafe_cons hc r
  | some w =>
    simp only [pre, List.cons_append]
    exact digitSafe_cons (by decide) _

theorem digitSafe_serArrTail (ind : Option Nat) (lvl lvc : Nat) (xs : List Json)
    (rest : List Char) :
    DigitSafe (serArrTail ind lvl xs ++ (pre ind lvc ++ ']' :: rest)) := by
  cases xs with
  | nil =>
    simp only [serArrTail, List.nil_append]
    exact digitSafe_cons_of_pre ind lvc (by decide) rest
  | cons x xs =>
    simp only [serArrTail, List.cons_append]
    exact digitSafe_cons (by decide) _

theorem digitSafe_serObjTail (ind : Option Nat) (lvl lvc : Nat)
    (kvs : List (String × Json)) (rest : List Char) :
    DigitSafe (serObjTail ind lvl kvs ++ (pre ind lvc ++ '}' :: rest)) := by
  cases kvs with
  | nil =>
    simp only [serObjTail, List.nil_append]
    exact digitSafe_cons_of_pre ind lvc (by decide) rest
  | cons kv kvs =>
    simp only [serObjTail, List.cons_append]
    exact digitSafe_cons (by decide) _

theorem skipWs_strLit_append (k : String) (s : List Char) :
    skipWs (strLit k ++ s) = strLit k ++ s := by
  simp only [strLit, List.cons_append]
  exact skipWs_cons_of_not_ws (by decide) _

theorem colonSep_shape :
    ∀ ind, ∃ ct, colonSep ind = ':' :: ct ∧ ∀ c ∈ ct, isWs c = true := by
  intro ind
  cases ind with
  | none => exact ⟨[], rfl, by simp⟩
  | some w =>
    refine ⟨[' '], rfl, ?_⟩
    intro c hc
    simp only [List.mem_singleton] at hc
    subst hc; decide

end LinearMcp


namespace LinearMcp

set_option maxHeartbeats 1000000 in
/-- Round trip of the parser over the serializer: with enough fuel,
parsing a serialized value (at any indentation mode and level) consumes
exactly the serialized characters and rebuilds the value. -/
theorem parse_master : ∀ fuel,
    (∀ (j : Json) (ind : Option Nat) (lvl : Nat) (rest : List Char),
       fuelB j ≤ fuel → DigitSafe rest →
       parseVal fuel (serVal ind lvl j ++ rest) = some (j, rest))
  ∧ (∀ (x : Json) (xs : List Json) (ind : Option Nat) (lvl lvc : Nat) (rest : List Char),
       fuelBL (x :: xs) ≤ fuel →
       parseElems fuel
           (serVal ind lvl x ++ (serArrTail ind lvl xs ++ (pre ind lvc ++ ']' :: rest)))
         = some (x :: xs, rest))
  ∧ (∀ (k : String) (v : Json) (kvs : List (String × Json)) (ind : Option Nat)
       (lvl lvc : Nat) (rest : List Char),
       fuelBM ((k, v) :: kvs) ≤ fuel →
       parseMembers fuel
           (strLit k ++ (colonSep ind ++ (serVal ind lvl v ++ (serObjTail ind lvl kvs
             ++ (pre ind lvc ++ '}' :: rest)))))
         = some ((k, v) :: kvs, rest)) := by
  intro fuel
  induction fuel with
  | zero =>
    refine ⟨?_, ?_, ?_⟩
    · intro j ind lvl rest hB hD
      have := fuelB_pos j; omega
    · intro x xs ind lvl lvc rest hBL
      simp only [fuelBL] at hBL; omega
    · intro k v kvs ind lvl lvc rest hBM
      simp only [fuelBM] at hBM; omega
  | succ f ih =>
    obtain ⟨ihP, ihQ, ihR⟩ := ih
    refine ⟨?_, ?_, ?_⟩
    · -- parseVal on a serialized value
      intro j ind lvl rest hB hD
      cases j with
      | null =>
        rw [show serVal ind lvl .null = ['n', 'u', 'l', 'l'] from rfl]
        simp +decide [parseVal, skipWs]
      | bool b =>
        cases b with
        | true =>
          rw [show serVal ind lvl (.bool true) = ['t', 'r', 'u', 'e'] from rfl]
          simp +decide [parseVal, skipWs]
        | false =>
          rw [show serVal ind lvl (.bool false) = ['f', 'a', 'l', 's', 'e'] from rfl]
          simp +decide [parseVal, skipWs]
      | num n =>
        by_cases hn : n < 0
        · rw [show serVal ind lvl (.num n) = intToChars n from rfl, intToChars, if_pos hn,
            List.cons_append]
          simp +decide [parseVal, skipWs, parseNatNum_natToChars _ _ hD]
          rw [abs_of_neg hn]; ring
        · obtain ⟨c, cs, hEq, hc⟩ := natToChars_head n.toNat
          have hPN : parseNatNum (c :: (cs ++ rest)) = some (n.toNat, rest) := by
            rw [← List.cons_append, ← hEq]
            exact parseNatNum_natToChars n.toNat rest hD
          have n1 : c ≠ '{' := isDigitC_ne hc (by decide)
          have n2 : c ≠ '[' := isDigitC_ne hc (by decide)
          have n3 : c ≠ '"' := isDigitC_ne hc (by decide)
          have n4 : c ≠ 't' := isDigitC_ne hc (by decide)
          have n5 : c ≠ 'f' := isDigitC_ne hc (by decide)
          have n6 : c ≠ 'n' := isDigitC_ne hc (by decide)
          have n7 : c ≠ '-' := isDigitC_ne hc (by decide)
          rw [show serVal ind lvl (.num n) = intToChars n from rfl, intToChars, if_neg hn,
            hEq, List.cons_append]
          simp only [parseVal]
          rw [skipWs_cons_of_not_ws (isDigitC_not_ws hc)]
          simp [n1, n2, n3, n4, n5, n6, n7, hc, hPN]
          omega
      | str s =>
        rw [show serVal ind lvl (.str s) = strLit s from rfl]
        simp only [strLit, List.cons_append, List.append_assoc, List.singleton_append]
        simp +decide [parseVal, skipWs, parseStrBody_escChars]
      | arr xs =>
        cases xs with
        | nil =>
          rw [show serVal ind lvl (.arr []) = ['[', ']'] from rfl]
          simp +decide [parseVal, skipWs]
        | cons x xs =>
          have hBL : fuelBL (x :: xs) ≤ f := by
            simp only [fuelB] at hB; omega
          have hQ := ihQ x xs ind (lvl + 1) lvl rest hBL
          have hne := (serVal_append_head_ne_brackets ind (lvl + 1) x
            (serArrTail ind (lvl + 1) xs ++ (pre ind lvl ++ ']' :: rest))).1
          simp only [serVal, List.cons_append, List.append_assoc, List.singleton_append]
          simp only [parseVal]
          rw [skipWs_cons_of_not_ws (by decide : isWs '[' = false)]
          simp +decide [skipWs_pre_append, skipWs_serVal_append, hQ]
          obtain ⟨c0, s0, hEq0, hws0, hb1, hb2⟩ := serVal_head ind (lvl + 1) x
          rw [hEq0]
          simp [hb1]
      | obj kvs =>
        cases kvs with
        | nil =>
          rw [show serVal ind lvl (.obj []) = ['{', '}'] from rfl]
          simp +decide [parseVal, skipWs]
        | cons kv kvs =>
          obtain ⟨k, v⟩ := kv
          have hBM : fuelBM ((k, v) :: kvs) ≤ f := by
            simp only [fuelB] at hB; omega
          have hR := ihR k v kvs ind (lvl + 1) lvl rest hBM
          have hne : ¬ ((strLit k ++ (colonSep ind ++ (serVal ind (lvl + 1) v
              ++ (serObjTail ind (lvl + 1) kvs ++ (pre ind lvl ++ '}' :: rest))))).head?
              = some '}') := by
            simp only [strLit, List.cons_append, List.head?_cons]
            decide
          simp only [serVal, List.cons_append, List.append_assoc, List.singleton_append]
          simp only [parseVal]
          rw [skipWs_cons_of_not_ws (by decide : isWs '{' = false)]
          simp +decide [skipWs_pre_append, skipWs_strLit_append, hR]
          simp [strLit]
    · -- parseElems on serialized elements
      intro x xs ind lvl lvc rest hBL
      have hBx : fuelB x ≤ f := by
        simp only [fuelBL] at hBL; omega
      have hP := ihP x ind lvl (serArrTail ind lvl xs ++ (pre ind lvc ++ ']' :: rest)) hBx
        (digitSafe_serArrTail ind lvl lvc xs rest)
      simp only [parseElems, hP]
      cases xs with
      | nil =>
        simp only [serArrTail, List.nil_append]
        rw [skipWs_pre_append, skipWs_cons_of_not_ws (by decide : isWs ']' = false)]
        simp
      | cons y ys =>
        have hBys : fuelBL (y :: ys) ≤ f := by
          simp only [fuelBL] at hBL ⊢; omega
        have hQ := ihQ y ys ind lvl lvc rest hBys
        have hpe := parseElems_ws f (pre ind lvl)
          (serVal ind lvl y ++ (serArrTail ind lvl ys ++ (pre ind lvc ++ ']' :: rest)))
          (pre_all_ws ind lvl)
        simp only [serArrTail, List.cons_append, List.append_assoc]
        rw [skipWs_cons_of_not_ws (by decide : isWs ',' = false)]
        simp only [hpe, hQ]
    · -- parseMembers on serialized members
      intro k v kvs ind lvl lvc rest hBM
      have hBv : fuelB v ≤ f := by
        simp only [fuelBM] at hBM; omega
      obtain ⟨ct, hcolon, hct⟩ := colonSep_shape ind
      have hP := ihP v ind lvl (serObjTail ind lvl kvs ++ (pre ind lvc ++ '}' :: rest)) hBv
        (digitSafe_serObjTail ind lvl lvc kvs rest)
      have hpv := parseVal_ws f ct
        (serVal ind lvl v ++ (serObjTail ind lvl kvs ++ (pre ind lvc ++ '}' :: rest))) hct
      simp only [strLit, List.cons_append, List.append_assoc, List.singleton_append]
      simp only [parseMembers]
      rw [parseStrBody_escChars]
      rw [hcolon]
      simp only [List.cons_append, List.nil_append]
      rw [skipWs_cons_of_not_ws (by decide : isWs ':' = false)]
      simp only [List.append_assoc] at hpv
      simp only [hpv, hP]
      cases kvs with
      | nil =>
        simp only [serObjTail, List.nil_append]
        rw [skipWs_pre_append, skipWs_cons_of_not_ws (by decide : isWs '}' = false)]
        simp
      | cons kv2 kvs2 =>
        obtain ⟨k2, v2⟩ := kv2
        have hBkvs : fuelBM ((k2, v2) :: kvs2) ≤ f := by
          simp only [fuelBM] at hBM ⊢; omega
        have hR := ihR k2 v2 kvs2 ind lvl lvc rest hBkvs
        simp only [serObjTail, List.cons_append, List.append_assoc]
        rw [skipWs_cons_of_not_ws (by decide : isWs ',' = false)]
        simp only [List.append_assoc] at hR
        simp only [skipWs_pre_append, skipWs_strLit_append, hR]

/-- JSON round trip: parsing the output of JSON.stringify (at any
indentation mode) yields the original value. -/
theorem jsonParse_jsonStringify (ind : Option Nat) (j : Json) :
    jsonParse (jsonStringify ind j) = some j := by
  have hlen := fuelB_le_len ind 0 j
  have hP := (parse_master ((serVal ind 0 j).length + 1)).1 j ind 0 [] (by omega) digitSafe_nil
  rw [List.append_nil] at hP
  simp only [jsonParse, jsonStringify]
  rw [hP]
  simp [skipWs]

end LinearMcp

namespace LinearMcp

/-! ## URI routing lemmas -/

theorem strStartsWith_append (p rest : String) : strStartsWith (p ++ rest) p = true := by
  simp only [strStartsWith, String.data_append]
  exact List.isPrefixOf_iff_prefix.mpr (List.prefix_append _ _)

theorem replaceFirstAux_matches_at_front (pat repl : List Char) :
    ∀ s, pat.isPrefixOf s = true → replaceFirstAux pat repl s = repl ++ s.drop pat.length := by
  intro s h
  cases s with
  | nil => simp [replaceFirstAux, h]
  | cons c cs => simp [replaceFirstAux, h]

theorem replaceFirst_prefix_drop (p rest : String) :
    replaceFirst (p ++ rest) p "" = rest := by
  apply String.ext
  simp only [replaceFirst, String.data_append]
  rw [replaceFirstAux_matches_at_front _ _ _ (List.isPrefixOf_iff_prefix.mpr (List.prefix_append _ _))]
  rw [List.drop_left]
  rfl

theorem strAppend_left_cancel {p a b : String} (h : p ++ a = p ++ b) : a = b := by
  apply String.ext
  have hd := congrArg String.data h
  rw [String.data_append, String.data_append] at hd
  exact List.append_cancel_left hd

theorem issues_append_ne_teams (rest : String) :
    "linear://issues/" ++ rest ≠ "linear://teams" := by
  intro h
  have hd := congrArg String.data h
  rw [String.data_append] at hd
  have hlen := congrArg List.length hd
  rw [List.length_append] at hlen
  rw [show ("linear://issues/" : String).data.length = 16 from rfl] at hlen
  rw [show ("linear://teams" : String).data.length = 14 from rfl] at hlen
  omega

theorem issues_append_eq_active_iff (rest : String) :
    "linear://issues/" ++ rest = "linear://issues/active" ↔ rest = "active" := by
  constructor
  · intro h
    exact strAppend_left_cancel (p := "linear://issues/") (by rw [h]; rfl)
  · intro h; rw [h]; rfl

/-- The per-issue template branch: any uri built as the issues prefix plus
a remainder other than "active" routes to getIssue on the remainder. -/
theorem readResourceInner_issue (b : LinearBackend) (rest : String) (hr : rest ≠ "active") :
    readResourceInner b ("linear://issues/" ++ rest) =
      (match b.getIssue rest with
       | .ok j => (.ok (some j), [.getIssue rest])
       | .error m => (.error (.backendErr m), [.getIssue rest])) := by
  have h1 : "linear://issues/" ++ rest ≠ "linear://issues/active" :=
    fun h => hr ((issues_append_eq_active_iff rest).mp h)
  have h2 := issues_append_ne_teams rest
  have h3 := strStartsWith_append "linear://issues/" rest
  simp [readResourceInner, if_neg h1, if_neg h2, h3, replaceFirst_prefix_drop, hr]

end LinearMcp


namespace LinearMcp

/-! ## Claim theorems -/

/-- C1: contrary to the claim, a call-tool request naming none of the
three declared tools does NOT surface as a protocol-level
method-not-found fault: the handler's own McpError is thrown inside its
try block, caught by its catch block, and returned as a soft
ToolCallResult with isError = true (text "Linear API error: MCP error
-32601: Unknown tool: NAME"); no backend call is made. -/
theorem callTool_unknown_tool_soft_result (b : LinearBackend) (args : ToolArgs)
    (name : String) (h1 : name ≠ "create_issue") (h2 : name ≠ "update_issue")
    (h3 : name ≠ "read_team_ids") :
    callTool b name args =
      (.ok (apiErrorResult ("MCP error -32601: Unknown tool: " ++ name)), []) := by
  simp only [callTool, callToolInner, if_neg h1, if_neg h2, if_neg h3]
  simp only [apiErrorResult, Thrown.message, McpError.errMessage, ErrorCode.toInt]
  rw [show toString (-32601 : Int) = "-32601" from rfl]
  rw [← String.append_assoc, ← String.append_assoc]
  rfl

/-- C1 witness: the concrete unknown tool call from the spec. -/
theorem callTool_unknown_tool_soft_result_witness :
    callTool sampleBackend "does_not_exist" [] =
      (.ok (apiErrorResult ("MCP error -32601: Unknown tool: " ++ "does_not_exist")), []) :=
  callTool_unknown_tool_soft_result sampleBackend [] "does_not_exist"
    (by decide) (by decide) (by decide)

/-- C2: a read-resource request with an unroutable uri performs no
backend call and fails with a protocol fault, but the fault is an
internal-error McpError wrapping the handler's own invalid-request
McpError (whose message the catch block stringifies), not an
invalid-request fault as the claim states. -/
theorem readResource_unknown_resource_internal_error (b : LinearBackend) (uri : String)
    (h1 : uri ≠ "linear://issues/active") (h2 : uri ≠ "linear://teams")
    (h3 : strStartsWith uri "linear://issues/" = false) :
    readResource b uri =
      (.error { code := .internalError,
                msg := "Linear API error: MCP error -32600: Unknown resource: " ++ uri }, []) := by
  simp only [readResource, readResourceInner, if_neg h1, if_neg h2, h3]
  simp only [Bool.false_eq_true, if_false, Thrown.message, McpError.errMessage, ErrorCode.toInt]
  rw [show toString (-32600 : Int) = "-32600" from rfl]
  rw [← String.append_assoc, ← String.append_assoc]
  rfl

/-- C2 witness: the concrete unroutable uri from the spec. -/
theorem readResource_unknown_resource_internal_error_witness :
    readResource sampleBackend "linear://unknown" =
      (.error { code := .internalError,
                msg := "Linear API error: MCP error -32600: Unknown resource: "
                  ++ "linear://unknown" }, []) :=
  readResource_unknown_resource_internal_error sampleBackend "linear://unknown"
    (by decide) (by decide) (by decide)

/-- C3 counterexample: calling create_issue with an empty arguments
object (title and teamId absent) does not fail before the backend; the
backend createIssue operation is invoked, with every field undefined. -/
theorem create_issue_missing_required_reaches_backend :
    (callTool sampleBackend "create_issue" []).2 =
      [.createIssue { title := none, description := none, teamId := none, priority := none }]
    ∧ (callTool sampleBackend "create_issue" []).2 ≠ [] := by
  refine ⟨rfl, ?_⟩
  intro h
  rw [show (callTool sampleBackend "create_issue" []).2 =
    [.createIssue { title := none, description := none, teamId := none, priority := none }]
    from rfl] at h
  cases h

/-- C3 amended: the dispatcher performs no required-field validation;
for the two tools with required fields, every call reaches the backend,
passing each (possibly absent) argument through unchanged. -/
theorem callTool_no_required_field_validation (b : LinearBackend) (args : ToolArgs) :
    (callTool b "create_issue" args).2 = [.createIssue (mkCreateFields args)]
    ∧ (callTool b "update_issue" args).2 =
        [.updateIssue (argLookup args "issueId") (mkUpdateFields args)] := by
  constructor
  · cases h : b.createIssue (mkCreateFields args) with
    | ok p => simp +decide [callTool, callToolInner, h]
    | error m => simp +decide [callTool, callToolInner, h]
  · cases h : b.updateIssue (argLookup args "issueId") (mkUpdateFields args) with
    | ok p => simp +decide [callTool, callToolInner, h]
    | error m => simp +decide [callTool, callToolInner, h]

/-- C4 counterexample: the catalog summaries are not the claimed ones:
update_issue declares a fourth, optional status parameter, so its
optional-field list is not just title and description. -/
theorem listTools_summary_ne_claimed :
    ¬ (listTools.map descSummary =
        [("create_issue", ["title", "teamId"], ["description", "priority"]),
         ("read_team_ids", [], []),
         ("update_issue", ["issueId"], ["title", "description"])]) := by
  decide

/-- C4 amended: listTools returns exactly three descriptors in
declaration order named create_issue, read_team_ids, update_issue, with
the claimed required and optional fields except that update_issue also
declares an optional status field; priority carries bounds 0 and 4 and
is the only bounded parameter. -/
theorem listTools_catalog :
    listTools.map descSummary =
      [("create_issue", ["title", "teamId"], ["description", "priority"]),
       ("read_team_ids", [], []),
       ("update_issue", ["issueId"], ["title", "description", "status"])]
    ∧ listTools.map (fun t => t.inputSchema.properties.map
          (fun p => (p.1, p.2.minimum, p.2.maximum))) =
        [[("title", none, none), ("description", none, none), ("teamId", none, none),
          ("priority", some 0, some 4)],
         [],
         [("issueId", none, none), ("title", none, none), ("description", none, none),
          ("status", none, none)]] := by
  constructor <;> rfl

/-- C5: when the backend operation of a recognized tool fails, the
dispatcher returns a soft result: isError = true with the single text
item "Linear API error: " followed by the failure message, and the
handler does not raise a protocol fault (the outcome is in the ok
branch of the handler result). -/
theorem callTool_backend_failure_soft (b : LinearBackend) (args : ToolArgs) (msg : String) :
    (b.createIssue (mkCreateFields args) = .error msg →
       callTool b "create_issue" args =
         (.ok (apiErrorResult msg), [.createIssue (mkCreateFields args)]))
    ∧ (b.updateIssue (argLookup args "issueId") (mkUpdateFields args) = .error msg →
       callTool b "update_issue" args =
         (.ok (apiErrorResult msg),
          [.updateIssue (argLookup args "issueId") (mkUpdateFields args)]))
    ∧ (b.listTeams = .error msg →
       callTool b "read_team_ids" args = (.ok (apiErrorResult msg), [.listTeams])) := by
  refine ⟨?_, ?_, ?_⟩ <;> intro h <;>
    simp +decide [callTool, callToolInner, h, Thrown.message]

/-- C5 witness: a backend failing with message "boom" on each tool. -/
theorem callTool_backend_failure_soft_witness :
    callTool failingBackend "create_issue" [] =
      (.ok (apiErrorResult "boom"),
       [.createIssue { title := none, description := none, teamId := none, priority := none }])
    ∧ callTool failingBackend "update_issue" [] =
      (.ok (apiErrorResult "boom"),
       [.updateIssue none { title := none, description := none }])
    ∧ callTool failingBackend "read_team_ids" [] =
      (.ok (apiErrorResult "boom"), [.listTeams]) :=
  ⟨(callTool_backend_failure_soft failingBackend [] "boom").1 rfl,
   (callTool_backend_failure_soft failingBackend [] "boom").2.1 rfl,
   (callTool_backend_failure_soft failingBackend [] "boom").2.2 rfl⟩

/-- C6: routing precedence of the ReadResource handler: the exact uri
"linear://issues/active" is handled by the active-issues branch (its
only backend call is listActiveIssues, never getIssue), while every
other uri formed by the issues prefix plus a remainder routes to
getIssue on exactly the remainder. -/
theorem readResource_routing_precedence (b : LinearBackend) (rest : String)
    (hr : rest ≠ "active") :
    (readResource b "linear://issues/active").2 = [.listActiveIssues]
    ∧ (readResource b ("linear://issues/" ++ rest)).2 = [.getIssue rest] := by
  constructor
  · cases h : b.listActiveIssues with
    | ok j => simp +decide [readResource, readResourceInner, h]
    | error m => simp +decide [readResource, readResourceInner, h]
  · cases h : b.getIssue rest with
    | ok j => simp [readResource, readResourceInner_issue b rest hr, h]
    | error m => simp [readResource, readResourceInner_issue b rest hr, h]

/-- C6 witness: the concrete issue id from the spec. -/
theorem readResource_routing_precedence_witness :
    (readResource sampleBackend "linear://issues/active").2 = [.listActiveIssues]
    ∧ (readResource sampleBackend ("linear://issues/" ++ "XYZ-123")).2 =
        [.getIssue "XYZ-123"] :=
  readResource_routing_precedence sampleBackend "XYZ-123" (by decide)

/-- C7: update_issue forwards to the backend exactly the given issueId
and an update object holding exactly the title and description
arguments (each passed through even when absent; the declared status
argument is never part of the update object), and on success with a
present issue returns the single text item "Updated issue: " followed
by the issue's url. -/
theorem callTool_update_issue_forwarding (b : LinearBackend) (args : ToolArgs) :
    (callTool b "update_issue" args).2 =
      [.updateIssue (argLookup args "issueId")
        { title := argLookup args "title", description := argLookup args "description" }]
    ∧ (∀ p i, b.updateIssue (argLookup args "issueId") (mkUpdateFields args) = .ok p →
        p.issue = some i →
        (callTool b "update_issue" args).1 =
          .ok { content := [{ type := "text", text := "Updated issue: " ++ i.url }],
                isError := none }) := by
  constructor
  · cases h : b.updateIssue (argLookup args "issueId")
        { title := argLookup args "title", description := argLookup args "description" } with
    | ok p => simp +decide [callTool, callToolInner, mkUpdateFields, h]
    | error m => simp +decide [callTool, callToolInner, mkUpdateFields, h]
  · intro p i h hi
    simp +decide [callTool, callToolInner, h, hi, urlText]

/-- C7 witness: a concrete update_issue call against the sample
backend. -/
theorem callTool_update_issue_forwarding_witness :
    (callTool sampleBackend "update_issue" [("issueId", .str "ISS-1")]).2 =
      [.updateIssue (some (.str "ISS-1")) { title := none, description := none }]
    ∧ (callTool sampleBackend "update_issue" [("issueId", .str "ISS-1")]).1 =
      .ok { content := [{ type := "text",
                          text := "Updated issue: " ++ "https://linear.app/i/2" }],
            isError := none } :=
  ⟨(callTool_update_issue_forwarding sampleBackend [("issueId", .str "ISS-1")]).1,
   (callTool_update_issue_forwarding sampleBackend [("issueId", .str "ISS-1")]).2
     { issue := some { url := "https://linear.app/i/2" } }
     { url := "https://linear.app/i/2" } rfl rfl⟩

/-- C8: every successful resource read echoes the request uri exactly
and carries the backend payload serialized whole (indented JSON, no
filtering): each routable branch returns uri = input uri, mimeType
application/json, and text = JSON.stringify(payload, null, 2). -/
theorem readResource_success_payload (b : LinearBackend) (j : Json) :
    (b.listActiveIssues = .ok j →
       (readResource b "linear://issues/active").1 =
         .ok { uri := "linear://issues/active", mimeType := "application/json",
               text := some (jsonStringify (some 2) j) })
    ∧ (b.listTeams = .ok j →
       (readResource b "linear://teams").1 =
         .ok { uri := "linear://teams", mimeType := "application/json",
               text := some (jsonStringify (some 2) j) })
    ∧ (∀ rest, rest ≠ "active" → b.getIssue rest = .ok j →
       (readResource b ("linear://issues/" ++ rest)).1 =
         .ok { uri := "linear://issues/" ++ rest, mimeType := "application/json",
               text := some (jsonStringify (some 2) j) }) := by
  refine ⟨?_, ?_, ?_⟩
  · intro h; simp +decide [readResource, readResourceInner, h]
  · intro h; simp +decide [readResource, readResourceInner, h]
  · intro rest hr h
    simp [readResource, readResourceInner_issue b rest hr, h]

/-- C8 witness: the three routable reads against the sample backend. -/
theorem readResource_success_payload_witness :
    (readResource sampleBackend "linear://issues/active").1 =
      .ok { uri := "linear://issues/active", mimeType := "application/json",
            text := some (jsonStringify (some 2) (.arr [.obj [("id", .str "ISS-1")]])) }
    ∧ (readResource sampleBackend ("linear://issues/" ++ "XYZ-123")).1 =
      .ok { uri := "linear://issues/" ++ "XYZ-123", mimeType := "application/json",
            text := some (jsonStringify (some 2) (.obj [("id", .str "XYZ-123")])) } :=
  ⟨(readResource_success_payload sampleBackend (.arr [.obj [("id", .str "ISS-1")]])).1 rfl,
   (readResource_success_payload sampleBackend
      (.obj [("id", .str "XYZ-123")])).2.2 "XYZ-123" (by decide) rfl⟩

/-- C9: JSON round-trip fidelity and indentation modes: parsing the
serialization of any backend value returns a structurally equal value,
both for the 2-space-indented serialization used by resource reads and
for the compact serialization; resource reads serialize with
JSON.stringify(content, null, 2) while read_team_ids serializes with
plain JSON.stringify. -/
theorem json_roundtrip_and_indent_modes :
    (∀ j : Json, jsonParse (jsonStringify (some 2) j) = some j)
    ∧ (∀ j : Json, jsonParse (jsonStringify none j) = some j)
    ∧ (∀ (b : LinearBackend) (j : Json) (args : ToolArgs), b.listTeams = .ok j →
        callTool b "read_team_ids" args =
          (.ok { content := [{ type := "text", text := jsonStringify none j }],
                 isError := none }, [.listTeams]))
    ∧ (∀ (b : LinearBackend) (j : Json), b.listTeams = .ok j →
        (readResource b "linear://teams").1 =
          .ok { uri := "linear://teams", mimeType := "application/json",
                text := some (jsonStringify (some 2) j) }) := by
  refine ⟨fun j => jsonParse_jsonStringify (some 2) j,
          fun j => jsonParse_jsonStringify none j, ?_, ?_⟩
  · intro b j args h
    simp +decide [callTool, callToolInner, h]
  · intro b j h
    simp +decide [readResource, readResourceInner, h]

/-- C9 witness: round trip on a sample value covering every constructor
and the string escapes, and the two serialization modes on the sample
backend. -/
theorem json_roundtrip_and_indent_modes_witness :
    jsonParse (jsonStringify (some 2) sampleJson) = some sampleJson
    ∧ jsonParse (jsonStringify none sampleJson) = some sampleJson
    ∧ callTool sampleBackend "read_team_ids" [] =
        (.ok { content := [{ type := "text",
                             text := jsonStringify none
                               (.arr [.obj [("id", .str "team1"), ("name", .str "Core")]]) }],
               isError := none }, [.listTeams])
    ∧ (readResource sampleBackend "linear://teams").1 =
        .ok { uri := "linear://teams", mimeType := "application/json",
              text := some (jsonStringify (some 2)
                (.arr [.obj [("id", .str "team1"), ("name", .str "Core")]])) } :=
  ⟨json_roundtrip_and_indent_modes.1 sampleJson,
   json_roundtrip_and_indent_modes.2.1 sampleJson,
   json_roundtrip_and_indent_modes.2.2.1 sampleBackend
     (.arr [.obj [("id", .str "team1"), ("name", .str "Core")]]) [] rfl,
   json_roundtrip_and_indent_modes.2.2.2 sampleBackend
     (.arr [.obj [("id", .str "team1"), ("name", .str "Core")]]) rfl⟩

/-- C10: a create_issue call whose backend call succeeds returns a
success result (no isError flag) with the single text item "Created
issue: " followed by the created issue's url, rendered as the literal
"Created issue: undefined" when the payload's issue is absent. -/
theorem callTool_create_issue_success (b : LinearBackend) (args : ToolArgs)
    (p : IssuePayload) (h : b.createIssue (mkCreateFields args) = .ok p) :
    callTool b "create_issue" args =
      (.ok { content := [{ type := "text", text := "Created issue: " ++ urlText p.issue }],
             isError := none }, [.createIssue (mkCreateFields args)])
    ∧ (p.issue = none →
       callTool b "create_issue" args =
         (.ok { content := [{ type := "text", text := "Created issue: undefined" }],
                isError := none }, [.createIssue (mkCreateFields args)])) := by
  constructor
  · simp +decide [callTool, callToolInner, h]
  · intro hi
    simp +decide [callTool, callToolInner, h, hi, urlText]

/-- C10 witness: a successful create against the sample backend and the
undefined-url rendering against the payloadless backend. -/
theorem callTool_create_issue_success_witness :
    callTool sampleBackend "create_issue" [("title", .str "T"), ("teamId", .str "team1")] =
      (.ok { content := [{ type := "text",
                           text := "Created issue: "
                             ++ urlText (some { url := "https://linear.app/i/1" }) }],
             isError := none },
       [.createIssue { title := some (.str "T"), description := none,
                       teamId := some (.str "team1"), priority := none }])
    ∧ callTool payloadlessBackend "create_issue" [] =
      (.ok { content := [{ type := "text", text := "Created issue: undefined" }],
             isError := none },
       [.createIssue { title := none, description := none, teamId := none,
                       priority := none }]) :=
  ⟨(callTool_create_issue_success sampleBackend [("title", .str "T"), ("teamId", .str "team1")]
      { issue := some { url := "https://linear.app/i/1" } } rfl).1,
   (callTool_create_issue_success payloadlessBackend [] { issue := none } rfl).2 rfl⟩

end LinearMcp
